import Mathlib

/-!
Verification of the Jira issue synchronization engine of this repository
(`sync_issues.py`): a shallow embedding of the value resolver, the payload
builders, the sync orchestrator loop, the filename prefix convention and the
attachment MERGE algorithm, together with theorems settling the
specification claims.

Strings are modelled by Lean `String` (a list of unicode scalar values,
matching Python `str` for the operations used: lexicographic comparison by
code point, concatenation, slicing).
-/

namespace JiraSyncVerif

/-! ## Python string comparison -/

/-- Lexicographic strict order on character lists: Python `<` on `str`
(compared code point by code point). -/
def strLtL : List Char → List Char → Bool
  | [], [] => false
  | [], _ :: _ => true
  | _ :: _, [] => false
  | a :: as, b :: bs =>
    if a.toNat < b.toNat then true
    else if b.toNat < a.toNat then false
    else strLtL as bs

/-- Python `a < b` on strings. -/
def pyLt (a b : String) : Bool := strLtL a.data b.data

/-- Python `a <= b` on strings. -/
def pyLe (a b : String) : Bool := !(pyLt b a)

/-! ## The filename prefix convention

`remove_prefix_from_filename` in the source is
`re.match(r'^\[[^\]]+\]\s+(.+)$', filename)`, returning group 1 on a match
and the input unchanged otherwise.  The matcher below implements exactly the
semantics of that one pattern under Python `re`: `[^\]]+` is greedy and can
end only at the first `]`; `\s+` is greedy with backtracking; `.` does not
match a newline; `$` matches at the end of the string or just before a
single trailing newline. -/

/-- Python `\s` on the characters that can appear here (the ASCII whitespace
class `[ \t\n\r\f\v]`). -/
def isWs (c : Char) : Bool :=
  c = ' ' || c = '\t' || c = '\n' || c = '\r' || c = '\x0b' || c = '\x0c'

/-- `(.+)$` applied to `r`: succeeds iff `r` is non-empty, does not start
with a newline, and contains no newline except possibly one single trailing
newline; the group is `r` without that trailing newline. -/
def dotPlusDollar (r : List Char) : Option (List Char) :=
  match r with
  | [] => none
  | c :: _ =>
    if c = '\n' then none
    else
      let g := r.takeWhile (fun ch => ch ≠ '\n')
      let t := r.drop g.length
      if t = [] ∨ t = ['\n'] then some g else none

/-- Backtracking for `\s+(.+)$`: try consuming `i` whitespace characters,
then `i - 1`, ... down to `1` (greedy first). -/
def wsSplitFrom (r : List Char) : Nat → Option (List Char)
  | 0 => none
  | j + 1 =>
    match dotPlusDollar (r.drop (j + 1)) with
    | some g => some g
    | none => wsSplitFrom r j

/-- `\s+(.+)$` on `r`: the greedy run of whitespace is tried first. -/
def wsThenRest (r : List Char) : Option (List Char) :=
  wsSplitFrom r (r.takeWhile isWs).length

/-- `remove_prefix_from_filename`: strip a leading `[PROJECT_KEY] ` marker
(the regex above); a non-matching filename is returned unchanged. -/
def removePrefixL (filename : String) : List Char → String
  | [] => filename
  | c0 :: rest =>
    if c0 = '[' then
      if rest.takeWhile (fun ch => ch ≠ ']') = [] then filename
      else
        match rest.drop (rest.takeWhile (fun ch => ch ≠ ']')).length with
        | [] => filename
        | c1 :: tail =>
          if c1 = ']' then
            match wsThenRest tail with
            | some g => String.mk g
            | none => filename
          else filename
    else filename

/-- `remove_prefix_from_filename(filename)` of the source: strip one
leading `[PROJECT_KEY] ` marker via the pattern above; a non-matching
filename is returned unchanged. -/
def remove_prefix_from_filename (filename : String) : String :=
  removePrefixL filename filename.data

/-- `get_filename_with_prefix` from the source (renamed for Lean): build
`[project_key] filename`, first stripping any existing marker. -/
def filenameWithKey (filename project_key : String) : String :=
  "[" ++ project_key ++ "] " ++ remove_prefix_from_filename filename

/-! ## JSON-like field values -/

/-- The values Jira fields can carry.  `null` is used only where the source
itself stores a Python `None` into a payload; an absent or JSON-null issue
field is modelled by `Option.none` at the lookup, matching the source's
`dict.get(...) is not None` tests. -/
inductive JValue where
  | null
  | bool (b : Bool)
  | num (n : Int)
  | str (s : String)
  | arr (xs : List JValue)
  | obj (fs : List (String × JValue))

/-- Python `d.get(k)` on a string-keyed dictionary. -/
def dGet {α : Type} : List (String × α) → String → Option α
  | [], _ => none
  | (k', v) :: rest, k => if k' = k then some v else dGet rest k

/-- Python `d[k] = v`: replace the binding of an existing key, else append
(dictionaries preserve insertion order). -/
def dSet {α : Type} : List (String × α) → String → α → List (String × α)
  | [], k, v => [(k, v)]
  | (k', v') :: rest, k, v =>
    if k' = k then (k, v) :: rest else (k', v') :: dSet rest k v

/-- Python truthiness of a field value. -/
def truthy : JValue → Bool
  | .null => false
  | .bool b => b
  | .num n => n ≠ 0
  | .str s => s ≠ ""
  | .arr xs => !xs.isEmpty
  | .obj fs => !fs.isEmpty

/-- Python truthiness of the result of a `.get`. -/
def truthyO : Option JValue → Bool
  | none => false
  | some v => truthy v

/-- Python `str(...)` for the shapes that occur as cross-reference values
(scalars); containers get a canonical non-empty rendering standing for
their `repr`. -/
def pyStr : JValue → String
  | .null => "None"
  | .bool b => if b then "True" else "False"
  | .num n => toString n
  | .str s => s
  | .arr _ => "<list>"
  | .obj _ => "<dict>"

/-- A Jira issue: its key and its `fields` dictionary. -/
structure Issue where
  key : String
  fields : List (String × JValue)

/-! ## Field mapping rules -/

/-- One entry of `jira_field_mapping.json` (a JSON object); a key that is
absent in the JSON is `none`.  `pfx` stands for the source's `prefix` key. -/
structure ConfigItem where
  strategy : Option String := none
  syncDirection : Option String := none
  type : Option String := none
  fieldId : Option String := none
  sourceFieldId : Option String := none
  targetFieldId : Option String := none
  targetFieldName : Option String := none
  targetFieldDataType : Option String := none
  dataType : Option String := none
  valueMapping : List (String × String) := []
  reverseMapping : List (String × String) := []
  static_value : Option JValue := none
  staticValue : Option JValue := none
  triggerOn : Option (List String) := none
  trigger_on : Option (List String) := none
  metadataType : Option String := none
  pfx : Option String := none

/-- `item.get('triggerOn', item.get('trigger_on', ['CREATE', 'UPDATE']))`. -/
def triggerOnOf (item : ConfigItem) : List String :=
  match item.triggerOn with
  | some l => l
  | none =>
    match item.trigger_on with
    | some l => l
    | none => ["CREATE", "UPDATE"]

/-- Python `needle in hay` on lists (contiguous sublist from some start). -/
def listInfix (needle : List Char) : List Char → Bool
  | [] => needle.isPrefixOf []
  | c :: t => needle.isPrefixOf (c :: t) || listInfix needle t

/-- Python `needle in hay` on strings (substring test). -/
def strContains (hay needle : String) : Bool := listInfix needle.data hay.data

/-! ## Value Resolver (`FieldProcessor.resolve_value`) -/

/-- `input_val.get('name') or input_val.get('value') or input_val` for a
dictionary input (a chain of Python `or`: first truthy operand, else the
last); any other input is returned as is. -/
def extractRaw (v : JValue) : JValue :=
  match v with
  | .obj fs =>
    match dGet fs "name" with
    | some n =>
      if truthy n then n
      else
        match dGet fs "value" with
        | some w => if truthy w then w else v
        | none => v
    | none =>
      match dGet fs "value" with
      | some w => if truthy w then w else v
      | none => v
  | _ => v

/-- The `for k, v in forward_map.items(): if v == raw_val: return k` scan:
the first key in declaration order whose value equals the scalar. -/
def revScan (m : List (String × String)) (v : String) : Option String :=
  match m with
  | [] => none
  | (k, v') :: rest => if v' = v then some k else revScan rest v

/-- `FieldProcessor.resolve_value(input_val, config_item, direction)`:
Python `None` results are `Option.none`.  A non-string extracted scalar
cannot hit the string-keyed mapping tables (for an unhashable dict scalar
Python would raise; such inputs do not occur and are modelled as a miss). -/
def resolve_value (input_val : JValue) (item : ConfigItem) (direction : String) :
    Option JValue :=
  let strat := item.strategy.getD "DIRECT_COPY"
  if strat = "STATIC_VALUE" then
    let sv := item.static_value.getD (.obj [])
    match sv with
    | .obj fs => dGet fs "value"
    | v => some v
  else if strat = "SYNC_METADATA" then none
  else if strat = "DIRECT_COPY" then some input_val
  else if strat = "MAPPED_SYNC" then
    let raw := extractRaw input_val
    if direction = "S2T" then
      match raw with
      | .str s =>
        match dGet item.valueMapping s with
        | some m =>
          if m ≠ "" then
            if item.type = some "system" ∧ item.fieldId.getD "" = "priority" then
              some (.obj [("name", .str m)])
            else if item.type = some "custom" ∨
                strContains (item.targetFieldId.getD "") "customfield" then
              some (.obj [("value", .str m)])
            else some (.str m)
          else none
        | none => none
      | _ => none
    else if direction = "T2S" then
      match raw with
      | .str s =>
        match dGet item.reverseMapping s with
        | some rv => some (.obj [("value", .str rv)])
        | none =>
          match revScan item.valueMapping s with
          | some k => some (.obj [("value", .str k)])
          | none => none
      | _ => none
    else none
  else none

/-! ## `FieldProcessor.format_field_value` -/

/-- `field_value.split('T')[0]`: the characters before the first `T`. -/
def beforeT (s : String) : String :=
  String.mk (s.data.takeWhile (fun c => c ≠ 'T'))

/-- `FieldProcessor.format_field_value(field_value, config_item)`:
dictionaries are returned as is; otherwise the value is wrapped according to
the declared target data type, falling back to the custom-field heuristic. -/
def format_field_value (v : JValue) (item : ConfigItem) : JValue :=
  let tfid := item.targetFieldId.getD ""
  let fdt : Option String :=
    match item.targetFieldDataType with
    | some x => some x
    | none => item.dataType
  match v with
  | .obj _ => v
  | _ =>
    let fallback :=
      if strContains tfid "customfield" then
        match v with
        | .str _ => JValue.obj [("value", v)]
        | _ => v
      else v
    match fdt with
    | some t =>
      if t = "" then fallback
      else if t = "option" ∨ t = "select" ∨
          t = "com.atlassian.jira.plugin.system.customfieldtypes:select" then
        .obj [("value", v)]
      else if t = "array" ∨ t = "multiselect" ∨
          t = "com.atlassian.jira.plugin.system.customfieldtypes:multiselect" then
        match v with
        | .arr xs =>
          .arr (xs.map (fun x =>
            match x with
            | .str s => JValue.obj [("value", .str s)]
            | _ => x))
        | _ => .arr [.obj [("value", v)]]
      else if t = "string" ∨ t = "text" ∨ t = "textarea" then v
      else if t = "number" ∨ t = "float" then v
      else if t = "date" ∨ t = "datetime" then
        match v with
        | .str s => if strContains s "T" then .str (beforeT s) else .str s
        | _ => v
      else fallback
    | none => fallback

/-! ## `FieldProcessor.add_prefix_to_adf`

The source deep-copies the document and mutates the first paragraph that
contains a text node; the embedding rebuilds the tree instead. -/

/-- Scan one paragraph's content for the first text node; `some` holds the
rewritten content (the prefix node inserted before the text node unless the
text already starts with the prefix), `none` means no text node was found. -/
def insertPfxInPara (pfx : String) : List JValue → Option (List JValue)
  | [] => none
  | it :: rest =>
    match it with
    | .obj fs =>
      match dGet fs "type" with
      | some (.str "text") =>
        let text := match dGet fs "text" with
          | some (.str s) => s
          | _ => ""
        if pfx.isPrefixOf text then some (JValue.obj fs :: rest)
        else some (.obj [("type", .str "text"), ("text", .str (pfx ++ " "))]
          :: JValue.obj fs :: rest)
      | _ => (insertPfxInPara pfx rest).map (fun r => JValue.obj fs :: r)
    | _ => (insertPfxInPara pfx rest).map (fun r => it :: r)

/-- Scan the document's content for the first paragraph with a text node. -/
def addPfxParas (pfx : String) : List JValue → Option (List JValue)
  | [] => none
  | p :: rest =>
    match p with
    | .obj fs =>
      match dGet fs "type" with
      | some (.str "paragraph") =>
        let pc := match dGet fs "content" with
          | some (.arr xs) => xs
          | _ => []
        match insertPfxInPara pfx pc with
        | some pc' => some (JValue.obj (dSet fs "content" (.arr pc')) :: rest)
        | none => (addPfxParas pfx rest).map (fun r => JValue.obj fs :: r)
      | _ => (addPfxParas pfx rest).map (fun r => JValue.obj fs :: r)
    | _ => (addPfxParas pfx rest).map (fun r => p :: r)

/-- A fresh `{"type": "paragraph", "content": [node]}`. -/
def mkPara (node : JValue) : JValue :=
  .obj [("type", .str "paragraph"), ("content", .arr [node])]

/-- `FieldProcessor.add_prefix_to_adf(adf_content, prefix)`: `none` for a
non-`doc` input; otherwise insert the prefix text run in front of the first
text node, or fall back to the first paragraph / a fresh paragraph. -/
def add_prefix_to_adf (adf : JValue) (pfx : String) : Option JValue :=
  match adf with
  | .obj fs =>
    match dGet fs "type" with
    | some (.str "doc") =>
      let content := match dGet fs "content" with
        | some (.arr xs) => xs
        | _ => []
      match addPfxParas pfx content with
      | some content' => some (.obj (dSet fs "content" (.arr content')))
      | none =>
        let node : JValue := .obj [("type", .str "text"), ("text", .str (pfx ++ " "))]
        match content with
        | p :: rest =>
          match p with
          | .obj pfs =>
            match dGet pfs "type" with
            | some (.str "paragraph") =>
              let pc := match dGet pfs "content" with
                | some (.arr xs) => xs
                | _ => []
              some (.obj (dSet fs "content"
                (.arr (JValue.obj (dSet pfs "content" (.arr (node :: pc))) :: rest))))
            | _ => some (.obj (dSet fs "content" (.arr [mkPara node])))
          | _ => some (.obj (dSet fs "content" (.arr [mkPara node])))
        | [] => some (.obj (dSet fs "content" (.arr [mkPara node])))
    | _ => none
  | _ => none

/-- The prefix application both payload builders perform on a resolved
value: ADF documents get the prefix inserted as a text run (falling back to
the original on failure), plain strings get `f'{prefix} {val}'` unless the
prefix is already present; other shapes are unchanged. -/
def applyPfx (pfx : String) (v : JValue) : JValue :=
  if pfx = "" then v
  else
    match v with
    | .obj fs =>
      match dGet fs "type" with
      | some (.str "doc") => (add_prefix_to_adf (.obj fs) pfx).getD (.obj fs)
      | _ => .obj fs
    | .str s => if pfx.isPrefixOf s then .str s else .str (pfx ++ " " ++ s)
    | _ => v

/-! ## Payload Builder (`prepare_create_payload`, `prepare_update_payload`) -/

/-- One iteration of the rule loop of `prepare_create_payload`, updating the
`payload["fields"]` dictionary. -/
def createFieldsStep (srcFields : List (String × JValue))
    (acc : List (String × JValue)) (item : ConfigItem) : List (String × JValue) :=
  let sd := item.syncDirection.getD "S2T"
  if sd ≠ "S2T" ∧ sd ≠ "BIDIRECTIONAL" then acc
  else
    let strat := item.strategy.getD "DIRECT_COPY"
    if strat = "SYNC_METADATA" then acc
    else if strat = "STATIC_VALUE" ∧ "CREATE" ∈ triggerOnOf item then acc
    else
      let sf := if item.type = some "system" then item.fieldId else item.sourceFieldId
      let tf := if item.type = some "system" then item.fieldId else item.targetFieldId
      match sf, tf with
      | some sfv, some tfv =>
        if sfv = "" ∨ tfv = "" then acc
        else if item.type = some "system" ∧ sfv = "attachment" then acc
        else
          match dGet srcFields sfv with
          | some sv =>
            match resolve_value sv item "S2T" with
            | some tv => dSet acc tfv (applyPfx (item.pfx.getD "") tv)
            | none => acc
          | none => acc
      | _, _ => acc

/-- `prepare_create_payload`: the `fields` dictionary of the create payload
(project and issuetype entries included); the `customer_issue_id_field`
parameter of the source is unused there and omitted. -/
def prepare_create_payload (mapping : List ConfigItem) (s : Issue)
    (target_project_key issue_type : String) : List (String × JValue) :=
  mapping.foldl (createFieldsStep s.fields)
    [("project", .obj [("key", .str target_project_key)]),
     ("issuetype", .obj [("name", .str issue_type)])]

/-- One iteration of the rule loop of `prepare_update_payload`.  `now` is
`datetime.now().isoformat()` passed in explicitly. -/
def updateFieldsStep (sIss tIss : Issue) (direction now : String)
    (acc : List (String × JValue)) (item : ConfigItem) : List (String × JValue) :=
  let sd := item.syncDirection.getD "S2T"
  if sd ≠ "BIDIRECTIONAL" ∧ sd ≠ direction then acc
  else
    let strat := item.strategy.getD "DIRECT_COPY"
    if strat = "STATIC_VALUE" then
      if "UPDATE" ∉ triggerOnOf item then acc
      else
        let sv := match item.staticValue with
          | some v => v
          | none => item.static_value.getD (.obj [])
        match item.targetFieldId with
        | some tfid =>
          if tfid = "" then acc
          else
            dSet acc tfid (match sv with
              | .obj fs => (dGet fs "value").getD .null
              | v => v)
        | none => acc
    else if strat = "SYNC_METADATA" then
      match item.metadataType, item.targetFieldId with
      | some "last_sync_time", some tfid =>
        if tfid = "" then acc else dSet acc tfid (.str now)
      | _, _ => acc
    else
      let sf := if item.type = some "system" then item.fieldId else item.sourceFieldId
      let tf := if item.type = some "system" then item.fieldId else item.targetFieldId
      if direction = "S2T" then
        match sf, tf with
        | some sfv, some tfv =>
          if sfv = "" ∨ tfv = "" then acc
          else if item.type = some "system" ∧ sfv = "attachment" then acc
          else
            match dGet sIss.fields sfv with
            | some sv =>
              match resolve_value sv item "S2T" with
              | some tv => dSet acc tfv (applyPfx (item.pfx.getD "") tv)
              | none => acc
            | none => acc
        | _, _ => acc
      else if direction = "T2S" then
        match sf, tf with
        | some sfv, some tfv =>
          if sfv = "" ∨ tfv = "" then acc
          else if item.type = some "system" ∧ tfv = "attachment" then acc
          else
            match dGet tIss.fields tfv with
            | some tv =>
              match resolve_value tv item "T2S" with
              | some v => dSet acc sfv v
              | none => acc
            | none => acc
        | _, _ => acc
      else acc

/-- `prepare_update_payload`: the `fields` dictionary sent by the following
`update_issue` call (applied to the target for `S2T` and to the source for
`T2S`). -/
def prepare_update_payload (mapping : List ConfigItem) (sIss tIss : Issue)
    (direction now : String) : List (String × JValue) :=
  mapping.foldl (updateFieldsStep sIss tIss direction now) []

/-! ## Sync metadata field discovery -/

/-- `get_customer_issue_id_field_info(mappings)`: the `targetFieldId` and
`targetFieldName` of the first `SYNC_METADATA` / `customer_issue_id` rule. -/
def get_customer_issue_id_field_info :
    List ConfigItem → Option String × Option String
  | [] => (none, none)
  | item :: rest =>
    if item.strategy = some "SYNC_METADATA" ∧
        item.metadataType = some "customer_issue_id" then
      (item.targetFieldId, item.targetFieldName)
    else get_customer_issue_id_field_info rest

/-- `get_last_sync_time_field(mappings)`. -/
def get_last_sync_time_field : List ConfigItem → Option String
  | [] => none
  | item :: rest =>
    if item.strategy = some "SYNC_METADATA" ∧
        item.metadataType = some "last_sync_time" then
      item.targetFieldId
    else get_last_sync_time_field rest

/-- The lookup in `run_sync` for the config item matching a metadata field
(strategy `SYNC_METADATA`, the given `metadataType` and `targetFieldId`). -/
def findMetaConfig (mt fid : String) : List ConfigItem → Option ConfigItem
  | [] => none
  | item :: rest =>
    if item.strategy = some "SYNC_METADATA" ∧ item.metadataType = some mt ∧
        item.targetFieldId = some fid then
      some item
    else findMetaConfig mt fid rest

/-! ## Sync Orchestrator (`run_sync`) -/

/-- The module-level `DEBUG_MODE` flag of `sync_issues.py` (set to `True`
in the committed source). -/
def DEBUG_MODE : Bool := true

/-- `s_issue['fields'].get('updated', '')` (a non-string value would make
the subsequent comparison raise; modelled as the default). -/
def updatedStr (i : Issue) : String :=
  match dGet i.fields "updated" with
  | some (.str s) => s
  | _ => ""

/-- The cross-reference extraction of the lookup-map construction:
`remote_val = t['fields'].get(field)`, then for a dictionary
`remote_val.get('value') or remote_val.get('name')`. -/
def extractRefVal (fld : String) (t : Issue) : Option JValue :=
  match dGet t.fields fld with
  | some (.obj fs) =>
    match dGet fs "value" with
    | some v => if truthy v then some v else dGet fs "name"
    | none => dGet fs "name"
  | v => v

/-- One iteration of the lookup-map construction: an entry
`target_map[str(remote_val)] = t` when the extracted cross-reference value
is truthy; a falsy `customer_issue_id_field` configuration adds nothing. -/
def targetMapStep : Option String → List (String × Issue) → Issue →
    List (String × Issue)
  | none, m, _ => m
  | some fld, m, t =>
    if fld = "" then m
    else
      match extractRefVal fld t with
      | some v => if truthy v then dSet m (pyStr v) t else m
      | none => m

/-- The lookup map of step 3 of `run_sync`; `go` carries the dictionary
built so far. -/
def buildTargetMapGo (cid : Option String) :
    List Issue → List (String × Issue) → List (String × Issue)
  | [], m => m
  | t :: rest, m => buildTargetMapGo cid rest (targetMapStep cid m t)

/-- The lookup map of step 3 of `run_sync`. -/
def buildTargetMap (cid : Option String) (targets : List Issue) :
    List (String × Issue) :=
  buildTargetMapGo cid targets []

/-- The `last_sync_time` read of the matched branch:
`t_issue['fields'].get(field)`, unwrapping a `{'value': ...}` dictionary,
then the `if last_sync_time:` truthiness test.  The value is used in string
comparisons; a truthy non-string would raise there and is modelled as
absent. -/
def lastSyncOf (lstField : Option String) (t : Issue) : Option String :=
  match lstField with
  | none => none
  | some f =>
    let v := match dGet t.fields f with
      | some (.obj fs) => dGet fs "value"
      | w => w
    match v with
    | some (.str s) => if s = "" then none else some s
    | _ => none

/-- `if s_time > t_time: direction = "S2T" elif t_time > s_time:
direction = "T2S"` (with the initial `direction = "NONE"`): the conflict
direction computed from the two `updated` timestamps, used by both the
with-baseline and the first-sync paths of the matched branch. -/
def computeDirection (s_time t_time : String) : String :=
  if pyLt t_time s_time then "S2T"
  else if pyLt s_time t_time then "T2S"
  else "NONE"

/-- Which Jira client an effect goes to. -/
inductive Side where
  | source
  | target
deriving DecidableEq

/-- The observable effects of one `run_sync` iteration, in program order:
the issue-create call, the per-field post-create `PUT`s (with their
outcome), the batched `update_issue` calls, and the `sync_attachments`
invocations. -/
inductive SyncAction where
  | createCall (projectKey issue_type : String) (fields : List (String × JValue))
  | fieldPut (issueKey fieldId : String) (v : JValue) (ok : Bool)
  | batchUpdate (side : Side) (issueKey : String) (fields : List (String × JValue))
  | mergeAtt (sourceKey targetKey direction : String)

/-- The run summary counters. -/
structure Counts where
  created : Nat
  updated : Nat
  skipped : Nat
deriving DecidableEq

/-- The remote world as `run_sync` observes it: the key returned by a
successful `create_issue` (or `none` for a non-201 response), the per-field
success of the individual post-create `PUT`s, and the current time. -/
structure SyncEnv where
  createKey : String → Option String
  putOk : String → String → Bool
  now : String

/-- `issue_type` for the create branch: `"Bug"` in debug mode, else
`s_issue['fields'].get('issuetype', {}).get('name', 'Bug')`. -/
def createIssueType (s : Issue) : String :=
  if DEBUG_MODE then "Bug"
  else
    match dGet s.fields "issuetype" with
    | some (.obj fs) =>
      match dGet fs "name" with
      | some (.str n) => n
      | _ => "Bug"
    | _ => "Bug"

/-- The `post_create_fields` dictionary built after a successful create:
the `customer_issue_id` (set to the source key), the `last_sync_time` (set
to the current time), both formatted through their config item when one
matches, then every `STATIC_VALUE` rule with `CREATE` in `triggerOn`. -/
def postCreateFields (mapping : List ConfigItem) (now sKey : String) :
    List (String × JValue) :=
  let cid := (get_customer_issue_id_field_info mapping).1
  let lst := get_last_sync_time_field mapping
  let f1 : List (String × JValue) :=
    match cid with
    | some c =>
      if c = "" then []
      else
        match findMetaConfig "customer_issue_id" c mapping with
        | some item => dSet [] c (format_field_value (.str sKey) item)
        | none => dSet [] c (.str sKey)
    | none => []
  let f2 :=
    match lst with
    | some l =>
      if l = "" then f1
      else
        match findMetaConfig "last_sync_time" l mapping with
        | some item => dSet f1 l (format_field_value (.str now) item)
        | none => dSet f1 l (.str now)
    | none => f1
  mapping.foldl (fun acc item =>
    if item.strategy = some "STATIC_VALUE" ∧ "CREATE" ∈ triggerOnOf item then
      let sv := match item.staticValue with
        | some v => v
        | none => item.static_value.getD (.obj [])
      let actual := match sv with
        | .obj fs => (dGet fs "value").getD sv
        | v => v
      match item.targetFieldId with
      | some tfid =>
        if tfid = "" then acc else dSet acc tfid (format_field_value actual item)
      | none => acc
    else acc) f2

/-- The create branch of the per-issue loop (`s_key not in target_map`):
build and send the create payload; on failure nothing else happens (and no
counter is touched); on success apply the deferred metadata/static fields
one `PUT` at a time, batch-commit the successes, and run the attachment
merge against the new key. -/
def processCreate (mapping : List ConfigItem) (env : SyncEnv)
    (target_project_key : String) (s : Issue) : List SyncAction × Counts :=
  let itype := createIssueType s
  let payload := prepare_create_payload mapping s target_project_key itype
  match env.createKey s.key with
  | none => ([.createCall target_project_key itype payload], ⟨0, 0, 0⟩)
  | some newKey =>
    let pcf := postCreateFields mapping env.now s.key
    let puts := pcf.map (fun p =>
      SyncAction.fieldPut newKey p.1 p.2 (env.putOk newKey p.1))
    let succ := pcf.filter (fun p => env.putOk newKey p.1)
    let batch : List SyncAction :=
      if succ.isEmpty then [] else [.batchUpdate .target newKey succ]
    (.createCall target_project_key itype payload ::
      (puts ++ batch ++ [.mergeAtt s.key newKey "S2T"]), ⟨1, 0, 0⟩)

/-- The tail of the matched branch once a direction has been fixed: build
the update payload; if non-empty, send it to the side the direction picks
and count the issue as updated; always run the attachment merge; an empty
payload counts the issue as skipped. -/
def matchedUpdate (mapping : List ConfigItem) (env : SyncEnv) (s t : Issue)
    (direction : String) : List SyncAction × Counts :=
  if direction = "NONE" then ([.mergeAtt s.key t.key "NONE"], ⟨0, 0, 1⟩)
  else
    let uf := prepare_update_payload mapping s t direction env.now
    if uf.isEmpty then ([.mergeAtt s.key t.key direction], ⟨0, 0, 1⟩)
    else
      let upd : List SyncAction :=
        if direction = "S2T" then [.batchUpdate .target t.key uf]
        else if direction = "T2S" then [.batchUpdate .source s.key uf]
        else []
      (upd ++ [.mergeAtt s.key t.key direction],
        ⟨0, if direction = "S2T" ∨ direction = "T2S" then 1 else 0, 0⟩)

/-- The matched branch of the per-issue loop: when a `last_sync_time`
baseline exists and neither side changed since, skip the field sync (but
still merge attachments and count the issue as skipped); otherwise compare
the `updated` timestamps and continue with the resulting direction. -/
def processMatched (mapping : List ConfigItem) (env : SyncEnv) (s t : Issue) :
    List SyncAction × Counts :=
  let sTime := updatedStr s
  let tTime := updatedStr t
  match lastSyncOf (get_last_sync_time_field mapping) t with
  | some l =>
    if pyLe sTime l && pyLe tTime l then
      ([.mergeAtt s.key t.key "NONE"], ⟨0, 0, 1⟩)
    else matchedUpdate mapping env s t (computeDirection sTime tTime)
  | none => matchedUpdate mapping env s t (computeDirection sTime tTime)

/-- One iteration of the `for s_issue in source_issues` loop. -/
def processIssue (mapping : List ConfigItem) (env : SyncEnv)
    (target_project_key : String) (tmap : List (String × Issue)) (s : Issue) :
    List SyncAction × Counts :=
  match dGet tmap s.key with
  | none => processCreate mapping env target_project_key s
  | some t => processMatched mapping env s t

/-- Pointwise sum of counters. -/
def addCounts (a b : Counts) : Counts :=
  ⟨a.created + b.created, a.updated + b.updated, a.skipped + b.skipped⟩

/-- The whole per-issue loop of `run_sync` (step 4): the concatenated
effect trace and the final counters. -/
def runSyncLoop (mapping : List ConfigItem) (env : SyncEnv)
    (target_project_key : String) (tmap : List (String × Issue)) :
    List Issue → List SyncAction × Counts
  | [] => ([], ⟨0, 0, 0⟩)
  | s :: rest =>
    let r := processIssue mapping env target_project_key tmap s
    let r' := runSyncLoop mapping env target_project_key tmap rest
    (r.1 ++ r'.1, addCounts r.2 r'.2)

/-! ## Attachment Merger (`sync_attachments`)

The algorithm is modelled over attachment filenames: the remote attachment
lists of the two issues and the set of files in the local staging
directory.  Downloads and uploads may fail; the environment decides each by
the (prefixed) filename involved. -/

/-- The attachment-relevant state of one issue pair: the attachment
filenames on the source issue, on the target issue, and the filenames in
the local staging directory. -/
structure AttState where
  srcAtts : List String
  tgtAtts : List String
  localDir : List String
deriving DecidableEq

/-- Success/failure of the network transfers, per prefixed filename. -/
structure AttEnv where
  dlSrcOk : String → Bool
  dlTgtOk : String → Bool
  upTgtOk : String → Bool
  upSrcOk : String → Bool

/-- The all-successful environment. -/
def allOk : AttEnv := ⟨fun _ => true, fun _ => true, fun _ => true, fun _ => true⟩

/-- The prefix-stripped names of a list of filenames (the keys of the
attachment maps, and `get_local_attachments`). -/
def cleanNames (l : List String) : List String :=
  l.map remove_prefix_from_filename

/-- One download loop of `sync_attachments` over the stale attachment list
of one side: skip when the stripped name is already tracked locally, else
`download_attachment_to_local` (which returns the existing file untouched
when present, and otherwise downloads under the `[KEY] name` filename).
Returns the staging directory and the tracked-name set. -/
def downloadPhase (ok : String → Bool) (key : String) :
    List String → List String × List String → List String × List String
  | [], acc => acc
  | fn :: rest, (dir, lset) =>
    let clean := remove_prefix_from_filename fn
    if clean ∈ lset then downloadPhase ok key rest (dir, lset)
    else
      let pname := filenameWithKey fn key
      if pname ∈ dir then downloadPhase ok key rest (dir, clean :: lset)
      else if ok pname then downloadPhase ok key rest (pname :: dir, clean :: lset)
      else downloadPhase ok key rest (dir, lset)

/-- One upload loop of `sync_attachments`: `atts` is the stale list fetched
at the start of the call, `origCleans` the stripped-name key set of the
other side's stale list, `live` the other side's live attachment list
(re-fetched before each upload), `dir` the staging directory and `pk` the
uploading side's project key.  Returns the other side's new live list and
the uploads attempted (each upload succeeds or fails by `ok`; a missing
staged file is only warned about). -/
def uploadPhase (ok : String → Bool) (pk : String) (dir origCleans : List String) :
    List String → List String → List String × List String
  | [], live => (live, [])
  | fn :: rest, live =>
    let clean := remove_prefix_from_filename fn
    if clean ∈ origCleans then uploadPhase ok pk dir origCleans rest live
    else if clean ∈ cleanNames live then uploadPhase ok pk dir origCleans rest live
    else
      let pname := filenameWithKey fn pk
      if pname ∈ dir then
        let r := uploadPhase ok pk dir origCleans rest
          (if ok pname then pname :: live else live)
        (r.1, pname :: r.2)
      else uploadPhase ok pk dir origCleans rest live

/-- `sync_attachments` (the MERGE strategy): download both sides into the
staging directory, then upload source-side attachments missing on the
target (named `[SOURCE_KEY] name`) and target-side attachments missing on
the source (named `[TARGET_KEY] name`).  Returns the new state and the
uploads attempted. -/
def sync_attachments (env : AttEnv) (source_project_key target_project_key : String)
    (st : AttState) : AttState × List String :=
  let d1 := downloadPhase env.dlSrcOk source_project_key st.srcAtts
    (st.localDir, cleanNames st.localDir)
  let d2 := downloadPhase env.dlTgtOk target_project_key st.tgtAtts d1
  let c := uploadPhase env.upTgtOk source_project_key d2.1
    (cleanNames st.tgtAtts) st.srcAtts st.tgtAtts
  let d := uploadPhase env.upSrcOk target_project_key d2.1
    (cleanNames st.srcAtts) st.tgtAtts st.srcAtts
  (⟨d.1, c.1, d2.1⟩, c.2 ++ d.2)

/-! ## Well-formedness of project keys and filenames -/

/-- A usable project key: non-empty and without `]` (so that
`[key] name` strips back to `name`). -/
def goodKey (k : String) : Bool := !(k = "") && !(k.data.contains ']')

/-- A well-behaved attachment filename: its prefix-stripped form is
non-empty, does not start with whitespace and contains no newline, so that
stripping is stable under re-prefixing. -/
def goodName (fn : String) : Bool :=
  match (remove_prefix_from_filename fn).data with
  | [] => false
  | h :: t => !isWs h && !((h :: t).contains '\n')

/-- The number of source issues abandoned by the create branch: unmatched
issues whose `create_issue` call fails (non-201), which `run_sync` logs and
then drops without touching any counter. -/
def countFailedCreates (env : SyncEnv) (tmap : List (String × Issue)) :
    List Issue → Nat
  | [] => 0
  | s :: rest =>
    (if (dGet tmap s.key).isNone && (env.createKey s.key).isNone then 1 else 0) +
      countFailedCreates env tmap rest

/-! ## Concrete instances used by witnesses and counterexamples -/

/-- A `SYNC_METADATA` / `last_sync_time` rule on a bidirectional field. -/
def lastSyncRule : ConfigItem :=
  { strategy := some "SYNC_METADATA", syncDirection := some "BIDIRECTIONAL",
    metadataType := some "last_sync_time", targetFieldId := some "customfield_900" }

/-- A `SYNC_METADATA` / `customer_issue_id` rule. -/
def cidRule : ConfigItem :=
  { strategy := some "SYNC_METADATA", metadataType := some "customer_issue_id",
    targetFieldId := some "customfield_800", type := some "custom",
    targetFieldDataType := some "string" }

/-- A `STATIC_VALUE` rule triggered on create and update. -/
def staticRule : ConfigItem :=
  { strategy := some "STATIC_VALUE", targetFieldId := some "customfield_700",
    staticValue := some (.obj [("value", .str "FromCustomer")]),
    triggerOn := some ["CREATE", "UPDATE"],
    targetFieldDataType := some "option" }

/-- An environment in which every remote mutation fails. -/
def envNoRemote : SyncEnv := ⟨fun _ => none, fun _ _ => false, "2024-03-01T00:00:00"⟩

/-- An environment in which the create succeeds and every per-field `PUT`
except the one for `customfield_800` succeeds. -/
def envCreateOk : SyncEnv :=
  ⟨fun _ => some "NEW-1", fun _ fid => fid ≠ "customfield_800", "2024-03-01T00:00:00"⟩

/-- A source issue updated before the baseline below. -/
def sIssueA : Issue := ⟨"SRC-9", [("updated", .str "2024-01-15T00:00:00.000+0000")]⟩

/-- A matched target issue carrying a `last_sync_time` baseline newer than
both `updated` timestamps. -/
def tIssueA : Issue :=
  ⟨"TGT-9", [("updated", .str "2024-01-20T00:00:00.000+0000"),
    ("customfield_900", .str "2024-02-01T00:00:00")]⟩

/-- A source issue for the create branch. -/
def sIssueB : Issue := ⟨"SRC-27979", [("updated", .str "2024-02-10T00:00:00.000+0000")]⟩

/-- A source/target pair in which the target is strictly newer (direction
`T2S`) and the target carries no `last_sync_time` value. -/
def sIssueC : Issue := ⟨"SRC-1", [("updated", .str "2024-01-01T00:00:00.000+0000")]⟩

/-- See `sIssueC`. -/
def tIssueC : Issue := ⟨"TGT-1", [("updated", .str "2024-01-02T00:00:00.000+0000")]⟩

/-- Two target issues carrying the same cross-reference value. -/
def tIssue1 : Issue := ⟨"TGT-1", [("customfield_800", .str "SRC-1")]⟩

/-- See `tIssue1`. -/
def tIssue2 : Issue := ⟨"TGT-2", [("customfield_800", .str "SRC-1")]⟩

/-! ## Lemmas on the string order -/

theorem charEq_of_toNat {a b : Char} (h : a.toNat = b.toNat) : a = b :=
  Char.ext_iff.mpr (UInt32.ext_iff.mpr h)

theorem strLtL_irrefl (l : List Char) : strLtL l l = false := by
  induction l with
  | nil => rfl
  | cons a as ih => simp [strLtL, ih]

theorem strLtL_asymm {l m : List Char} (h : strLtL l m = true) :
    strLtL m l = false := by
  induction l generalizing m with
  | nil =>
    cases m with
    | nil => simp [strLtL] at h
    | cons b bs => rfl
  | cons a as ih =>
    cases m with
    | nil => simp [strLtL] at h
    | cons b bs =>
      by_cases hab : a.toNat < b.toNat
      · have hba : ¬ b.toNat < a.toNat := Nat.lt_asymm hab
        simp [strLtL, hab, hba] at h ⊢
      · by_cases hba : b.toNat < a.toNat
        · simp [strLtL, hab, hba] at h
        · simp [strLtL, hab, hba] at h ⊢
          exact ih h

theorem strLtL_eq_of_not_lt {l m : List Char} (h1 : strLtL l m = false)
    (h2 : strLtL m l = false) : l = m := by
  induction l generalizing m with
  | nil =>
    cases m with
    | nil => rfl
    | cons b bs => simp [strLtL] at h1
  | cons a as ih =>
    cases m with
    | nil => simp [strLtL] at h2
    | cons b bs =>
      by_cases hab : a.toNat < b.toNat
      · simp [strLtL, hab] at h1
      · by_cases hba : b.toNat < a.toNat
        · simp [strLtL, hba, Nat.lt_asymm hba] at h2
        · simp only [strLtL, if_neg hab, if_neg hba] at h1 h2
          have : a.toNat = b.toNat := Nat.le_antisymm
            (Nat.le_of_not_lt hba) (Nat.le_of_not_lt hab)
          rw [charEq_of_toNat this, ih h1 h2]

theorem pyLt_irrefl (s : String) : pyLt s s = false := strLtL_irrefl s.data

theorem pyLt_asymm {s t : String} (h : pyLt s t = true) : pyLt t s = false :=
  strLtL_asymm h

/-! ## C1: conflict direction from the `updated` timestamps -/

/-- C1: for matched source/target pairs the sync direction is computed from
the two `updated` timestamps (Python string comparison): source strictly
newer gives `S2T`, target strictly newer gives `T2S`, equal timestamps give
`NONE`. -/
theorem C1_conflict_direction (s_time t_time : String) :
    (pyLt t_time s_time = true → computeDirection s_time t_time = "S2T") ∧
    (pyLt s_time t_time = true → computeDirection s_time t_time = "T2S") ∧
    (s_time = t_time → computeDirection s_time t_time = "NONE") := by
  refine ⟨fun h => ?_, fun h => ?_, fun h => ?_⟩
  · simp [computeDirection, h]
  · simp [computeDirection, pyLt_asymm h, h]
  · subst h
    simp [computeDirection, pyLt_irrefl]

/-- C1 witness: the spec's concrete timestamps. -/
theorem C1_conflict_direction_witness :
    computeDirection "2023-12-10T10:00:00.000+0800" "2023-12-09T10:00:00.000+0800" = "S2T" ∧
    computeDirection "2023-12-09T10:00:00.000+0800" "2023-12-10T10:00:00.000+0800" = "T2S" ∧
    computeDirection "2023-12-10T10:00:00.000+0800" "2023-12-10T10:00:00.000+0800" = "NONE" :=
  ⟨(C1_conflict_direction _ _).1 (by decide),
   (C1_conflict_direction _ _).2.1 (by decide),
   (C1_conflict_direction _ _).2.2 rfl⟩

/-! ## C2: `MAPPED_SYNC` reverse resolution -/

theorem revScan_eq_find (m : List (String × String)) (v : String) :
    revScan m v = (m.find? (fun p => p.2 = v)).map (fun p => p.1) := by
  induction m with
  | nil => rfl
  | cons p rest ih =>
    by_cases h : p.2 = v
    · simp [revScan, List.find?, h]
    · simp [revScan, List.find?, h, ih]

/-- C2: for a `MAPPED_SYNC` rule resolved in direction `T2S`, an extracted
scalar that is a key of `reverseMapping` yields `{value: reverseMapping[s]}`;
otherwise the first key of `valueMapping` (declaration order) whose mapped
value equals the scalar yields `{value: key}`, and no such key yields no
value. -/
theorem C2_reverse_resolution (item : ConfigItem) (input : JValue) (s : String)
    (hstrat : item.strategy = some "MAPPED_SYNC")
    (hraw : extractRaw input = .str s) :
    (∀ v, dGet item.reverseMapping s = some v →
      resolve_value input item "T2S" = some (.obj [("value", .str v)])) ∧
    (dGet item.reverseMapping s = none →
      resolve_value input item "T2S" =
        ((item.valueMapping.find? (fun p => p.2 = s)).map
          (fun p => JValue.obj [("value", .str p.1)]))) := by
  constructor
  · intro v hv
    simp [resolve_value, hstrat, hraw, hv]
  · intro hnone
    simp only [resolve_value, hstrat, Option.getD_some, hraw]
    norm_num
    rw [hnone, revScan_eq_find]
    cases h : item.valueMapping.find? (fun p => p.2 = s) <;> simp [h]

/-- C2 witness: the spec's severity table with an empty `reverseMapping`
resolves `"Medium"` to `Sev-1` (the first matching key), not `Sev-2`. -/
theorem C2_reverse_resolution_witness :
    resolve_value (.str "Medium")
      { strategy := some "MAPPED_SYNC",
        valueMapping := [("Sev-0", "Low"), ("Sev-1", "Medium"),
          ("Sev-2", "Medium"), ("Sev-3", "High")] }
      "T2S" = some (.obj [("value", .str "Sev-1")]) := by
  exact ((C2_reverse_resolution
    { strategy := some "MAPPED_SYNC",
      valueMapping := [("Sev-0", "Low"), ("Sev-1", "Medium"),
        ("Sev-2", "Medium"), ("Sev-3", "High")] }
    (.str "Medium") "Medium" rfl rfl).2 rfl).trans rfl

/-! ## C3: skip with attachment merge -/

/-- C3: for a matched pair with a `last_sync_time` baseline on the target
and both `updated` timestamps at most the baseline, the orchestrator issues
no field update call, still invokes the attachment merge, and tallies the
issue as skipped. -/
theorem C3_skip_with_merge (mapping : List ConfigItem) (env : SyncEnv)
    (s t : Issue) (l : String)
    (hl : lastSyncOf (get_last_sync_time_field mapping) t = some l)
    (hs : pyLe (updatedStr s) l = true)
    (ht : pyLe (updatedStr t) l = true) :
    processMatched mapping env s t =
      ([.mergeAtt s.key t.key "NONE"], ⟨0, 0, 1⟩) := by
  simp [processMatched, hl, hs, ht]

/-- C3 witness: a concrete matched pair whose two `updated` timestamps both
precede the stored baseline. -/
theorem C3_skip_with_merge_witness :
    processMatched [lastSyncRule] envNoRemote sIssueA tIssueA =
      ([.mergeAtt "SRC-9" "TGT-9" "NONE"], ⟨0, 0, 1⟩) :=
  C3_skip_with_merge [lastSyncRule] envNoRemote sIssueA tIssueA
    "2024-02-01T00:00:00" rfl (by decide) (by decide)

/-! ## C4: create before metadata, per-field independence -/

/-- C4: for a new source issue (no match) whose create succeeds, the create
call is the first effect — before any attempt to set the
`customer_issue_id` / `last_sync_time` / static-value fields; every deferred
field is then applied by its own independent `PUT` (its outcome depending
only on that field), and the successfully applied fields are still
committed in a batch update. -/
theorem C4_create_then_metadata (mapping : List ConfigItem) (env : SyncEnv)
    (tpk : String) (s : Issue) (k : String)
    (hk : env.createKey s.key = some k) :
    (processCreate mapping env tpk s).1.head? =
      some (.createCall tpk (createIssueType s)
        (prepare_create_payload mapping s tpk (createIssueType s))) ∧
    (∀ p ∈ postCreateFields mapping env.now s.key,
      SyncAction.fieldPut k p.1 p.2 (env.putOk k p.1) ∈
        (processCreate mapping env tpk s).1) ∧
    ((postCreateFields mapping env.now s.key).filter (fun p => env.putOk k p.1) ≠ [] →
      SyncAction.batchUpdate .target k
          ((postCreateFields mapping env.now s.key).filter (fun p => env.putOk k p.1)) ∈
        (processCreate mapping env tpk s).1) := by
  refine ⟨?_, ?_, ?_⟩
  · simp [processCreate, hk]
  · intro p hp
    simp only [processCreate, hk]
    exact List.mem_cons_of_mem _ (List.mem_append_left _
      (List.mem_append_left _ (List.mem_map_of_mem _ hp)))
  · intro hne
    simp only [processCreate, hk]
    refine List.mem_cons_of_mem _ (List.mem_append_left _
      (List.mem_append_right _ ?_))
    rw [if_neg (by simpa [List.isEmpty_iff] using hne)]
    exact List.mem_singleton_self _

/-- C4 witness: with a customer-id rule, a last-sync rule and a static rule,
and the customer-id field rejected by the edit screen, each field still gets
its own `PUT` and the two successful fields are batch-committed. -/
theorem C4_create_then_metadata_witness :
    SyncAction.fieldPut "NEW-1" "customfield_800" (.str "SRC-27979") false ∈
      (processCreate [cidRule, lastSyncRule, staticRule] envCreateOk "TGT" sIssueB).1 ∧
    SyncAction.batchUpdate .target "NEW-1"
        [("customfield_900", .obj [("value", .str "2024-03-01T00:00:00")]),
         ("customfield_700", .obj [("value", .str "FromCustomer")])] ∈
      (processCreate [cidRule, lastSyncRule, staticRule] envCreateOk "TGT" sIssueB).1 :=
  ⟨(C4_create_then_metadata [cidRule, lastSyncRule, staticRule] envCreateOk
      "TGT" sIssueB "NEW-1" rfl).2.1 _ (List.mem_cons_self _ _),
   (C4_create_then_metadata [cidRule, lastSyncRule, staticRule] envCreateOk
      "TGT" sIssueB "NEW-1" rfl).2.2 (List.cons_ne_nil _ _)⟩

/-! ## Dictionary lemmas -/

theorem mem_dSet_self {α : Type} (m : List (String × α)) (k : String) (v : α) :
    (k, v) ∈ dSet m k v := by
  induction m with
  | nil => exact List.mem_singleton_self _
  | cons p rest ih =>
    obtain ⟨pk, pv⟩ := p
    by_cases h : pk = k
    · simp only [dSet, if_pos h]
      exact List.mem_cons_self _ _
    · simp only [dSet, if_neg h]
      exact List.mem_cons_of_mem _ ih

theorem mem_dSet_of_mem {α : Type} {m : List (String × α)} {k0 : String} {x : α}
    (h : (k0, x) ∈ m) (k : String) (v : α) (hne : k0 ≠ k) :
    (k0, x) ∈ dSet m k v := by
  induction m with
  | nil => cases h
  | cons p rest ih =>
    obtain ⟨pk, pv⟩ := p
    by_cases hk : pk = k
    · simp only [dSet, if_pos hk]
      rcases List.mem_cons.mp h with h1 | h1
      · exact absurd (hk ▸ congrArg Prod.fst h1) hne
      · exact List.mem_cons_of_mem _ h1
    · simp only [dSet, if_neg hk]
      rcases List.mem_cons.mp h with h1 | h1
      · exact List.mem_cons.mpr (Or.inl h1)
      · exact List.mem_cons_of_mem _ (ih h1)

theorem mem_of_mem_dSet {α : Type} {m : List (String × α)} {k k0 : String}
    {v x : α} (h : (k0, x) ∈ dSet m k v) :
    (k0 = k ∧ x = v) ∨ (k0, x) ∈ m := by
  induction m with
  | nil =>
    simp only [dSet] at h
    rcases List.mem_singleton.mp h with h1
    exact Or.inl ⟨congrArg Prod.fst h1, congrArg Prod.snd h1⟩
  | cons p rest ih =>
    obtain ⟨pk, pv⟩ := p
    by_cases hk : pk = k
    · simp only [dSet, if_pos hk] at h
      rcases List.mem_cons.mp h with h1 | h1
      · exact Or.inl ⟨congrArg Prod.fst h1, congrArg Prod.snd h1⟩
      · exact Or.inr (List.mem_cons_of_mem _ h1)
    · simp only [dSet, if_neg hk] at h
      rcases List.mem_cons.mp h with h1 | h1
      · exact Or.inr (List.mem_cons.mpr (Or.inl h1))
      · rcases ih h1 with h2 | h2
        · exact Or.inl h2
        · exact Or.inr (List.mem_cons_of_mem _ h2)

theorem key_mem_dSet {α : Type} {m : List (String × α)} {k0 : String}
    (h : ∃ x, (k0, x) ∈ m) (k : String) (v : α) :
    ∃ x, (k0, x) ∈ dSet m k v := by
  by_cases hk : k0 = k
  · exact ⟨v, hk ▸ mem_dSet_self m k v⟩
  · obtain ⟨x, hx⟩ := h
    exact ⟨x, mem_dSet_of_mem hx k v hk⟩

/-! ## C5: the cross-reference lookup map -/

theorem key_mem_targetMapStep (cid : Option String) (t : Issue)
    {m : List (String × Issue)} {k0 : String} (h : ∃ x, (k0, x) ∈ m) :
    ∃ x, (k0, x) ∈ targetMapStep cid m t := by
  cases cid with
  | none => exact h
  | some fld =>
    by_cases hf : fld = ""
    · simpa [targetMapStep, hf] using h
    · simp only [targetMapStep, if_neg hf]
      cases hx : extractRefVal fld t with
      | none => exact h
      | some v =>
        by_cases htv : truthy v = true
        · simpa [htv] using key_mem_dSet h (pyStr v) t
        · simpa [if_neg htv] using h

theorem key_mem_buildTargetMapGo (cid : Option String) (targets : List Issue)
    {m : List (String × Issue)} {k0 : String} (h : ∃ x, (k0, x) ∈ m) :
    ∃ x, (k0, x) ∈ buildTargetMapGo cid targets m := by
  induction targets generalizing m with
  | nil => exact h
  | cons t rest ih => exact ih (key_mem_targetMapStep cid t h)

theorem buildTargetMapGo_entries {fld : String} (targets : List Issue)
    {m : List (String × Issue)}
    (hm : ∀ k t', (k, t') ∈ m →
      ∃ v, extractRefVal fld t' = some v ∧ truthy v = true ∧ k = pyStr v) :
    ∀ k t', (k, t') ∈ buildTargetMapGo (some fld) targets m →
      ∃ v, extractRefVal fld t' = some v ∧ truthy v = true ∧ k = pyStr v := by
  induction targets generalizing m with
  | nil => exact hm
  | cons t rest ih =>
    intro k t' hmem
    refine ih ?_ k t' hmem
    intro k1 t1 h1
    by_cases hf : fld = ""
    · rw [targetMapStep, if_pos hf] at h1
      exact hm k1 t1 h1
    · rw [targetMapStep, if_neg hf] at h1
      cases hx : extractRefVal fld t with
      | none =>
        simp only [hx] at h1
        exact hm k1 t1 h1
      | some v =>
        simp only [hx] at h1
        by_cases htv : truthy v = true
        · rw [if_pos htv] at h1
          rcases mem_of_mem_dSet h1 with ⟨hk, hv⟩ | h2
          · exact ⟨v, hv.symm ▸ hx, htv, hk⟩
          · exact hm k1 t1 h2
        · rw [if_neg htv] at h1
          exact hm k1 t1 h1

theorem key_mem_buildTargetMapGo_of_truthy {fld : String} (hf : fld ≠ "")
    {t : Issue} {v : JValue} (hx : extractRefVal fld t = some v)
    (ht : truthy v = true) (targets : List Issue) :
    ∀ m0 : List (String × Issue), t ∈ targets →
      ∃ t', (pyStr v, t') ∈ buildTargetMapGo (some fld) targets m0 := by
  induction targets with
  | nil =>
    intro m0 htarg
    cases htarg
  | cons t0 rest ih =>
    intro m0 htarg
    rcases List.mem_cons.mp htarg with h1 | h1
    · subst h1
      simp only [buildTargetMapGo]
      apply key_mem_buildTargetMapGo
      have hstep : targetMapStep (some fld) m0 t = dSet m0 (pyStr v) t := by
        simp [targetMapStep, if_neg hf, hx, ht]
      rw [hstep]
      exact ⟨t, mem_dSet_self m0 (pyStr v) t⟩
    · exact ih _ h1

/-- C5 counterexample: two target issues carrying the same cross-reference
value; the later one overwrites the dictionary entry, so the earlier issue
has a non-empty `customer_issue_id` field yet no entry of the lookup map
holds it — refuting the claimed "entry for that issue iff field non-empty". -/
theorem C5_counterexample :
    truthyO (extractRefVal "customfield_800" tIssue1) = true ∧
    ¬ ∃ k, (k, tIssue1) ∈ buildTargetMap (some "customfield_800") [tIssue1, tIssue2] := by
  refine ⟨rfl, ?_⟩
  rintro ⟨k, hk⟩
  have hmap : buildTargetMap (some "customfield_800") [tIssue1, tIssue2] =
      [("SRC-1", tIssue2)] := rfl
  rw [hmap] at hk
  rcases List.mem_singleton.mp hk with h
  have h2 : tIssue1 = tIssue2 := congrArg Prod.snd h
  have h3 : tIssue1.key = tIssue2.key := congrArg Issue.key h2
  exact absurd h3 (by decide)

/-- C5 amended: every target issue whose `customer_issue_id`-mapped field is
non-empty contributes its (scalar-extracted, stringified) value as a key of
the lookup map, and every entry of the map holds an issue with a non-empty
field whose extracted value is exactly the entry's key — so an issue with
the field empty is never matched.  (The claim's per-issue "iff" fails when
two target issues share a value: the later overwrites the earlier.) -/
theorem C5_lookup_amended (fld : String) (hf : fld ≠ "") (targets : List Issue) :
    (∀ t ∈ targets, ∀ v, extractRefVal fld t = some v → truthy v = true →
      ∃ t', (pyStr v, t') ∈ buildTargetMap (some fld) targets) ∧
    (∀ k t', (k, t') ∈ buildTargetMap (some fld) targets →
      ∃ v, extractRefVal fld t' = some v ∧ truthy v = true ∧ k = pyStr v) := by
  constructor
  · intro t htarg v hx ht
    exact key_mem_buildTargetMapGo_of_truthy hf hx ht targets [] htarg
  · exact buildTargetMapGo_entries targets (fun k t' h => absurd h (List.not_mem_nil _))

/-- C5 witness: a single-issue target list produces its key. -/
theorem C5_lookup_amended_witness :
    ∃ t', ("SRC-1", t') ∈ buildTargetMap (some "customfield_800") [tIssue1] :=
  (C5_lookup_amended "customfield_800" (by decide) [tIssue1]).1 tIssue1
    (List.mem_singleton_self _) (.str "SRC-1") rfl rfl

/-! ## C6: where the `last_sync_time` marker is written -/

/-- C6: with a bidirectional `last_sync_time` rule and a matched pair whose
conflict direction is `T2S`, the current timestamp is placed in the single
update payload, and that payload is applied to the SOURCE issue
(`source_jira.update_issue(s_key, ...)`); nothing is written to the target,
contradicting the claim that the sync-completion marker always lands on the
target side. -/
theorem C6_lastSync_to_source :
    processMatched [lastSyncRule] envNoRemote sIssueC tIssueC =
      ([.batchUpdate .source "SRC-1"
          [("customfield_900", .str "2024-03-01T00:00:00")],
        .mergeAtt "SRC-1" "TGT-1" "T2S"], ⟨0, 1, 0⟩) := rfl

/-! ## C7: the counter invariant -/

theorem computeDirection_cases (s t : String) :
    computeDirection s t = "S2T" ∨ computeDirection s t = "T2S" ∨
      computeDirection s t = "NONE" := by
  unfold computeDirection
  by_cases h1 : pyLt t s = true
  · exact Or.inl (if_pos h1)
  · rw [if_neg h1]
    by_cases h2 : pyLt s t = true
    · exact Or.inr (Or.inl (if_pos h2))
    · exact Or.inr (Or.inr (if_neg h2))

theorem matchedUpdate_counts (mapping : List ConfigItem) (env : SyncEnv)
    (s t : Issue) (d : String) (hd : d = "S2T" ∨ d = "T2S" ∨ d = "NONE") :
    ((matchedUpdate mapping env s t d).2.created +
      (matchedUpdate mapping env s t d).2.updated +
      (matchedUpdate mapping env s t d).2.skipped) = 1 := by
  rcases hd with h | h | h <;> subst h <;>
    by_cases he : (prepare_update_payload mapping s t "S2T" env.now).isEmpty = true <;>
    by_cases he' : (prepare_update_payload mapping s t "T2S" env.now).isEmpty = true <;>
    simp [matchedUpdate, he, he']

theorem processMatched_counts (mapping : List ConfigItem) (env : SyncEnv)
    (s t : Issue) :
    ((processMatched mapping env s t).2.created +
      (processMatched mapping env s t).2.updated +
      (processMatched mapping env s t).2.skipped) = 1 := by
  unfold processMatched
  cases lastSyncOf (get_last_sync_time_field mapping) t with
  | none => exact matchedUpdate_counts mapping env s t _ (computeDirection_cases _ _)
  | some l =>
    cases hB : (pyLe (updatedStr s) l && pyLe (updatedStr t) l) with
    | true => simp [hB]
    | false =>
      simp only [hB, Bool.false_eq_true, if_false]
      exact matchedUpdate_counts mapping env s t _ (computeDirection_cases _ _)

theorem processIssue_counts (mapping : List ConfigItem) (env : SyncEnv)
    (tpk : String) (tmap : List (String × Issue)) (s : Issue) :
    ((processIssue mapping env tpk tmap s).2.created +
      (processIssue mapping env tpk tmap s).2.updated +
      (processIssue mapping env tpk tmap s).2.skipped) +
      (if (dGet tmap s.key).isNone && (env.createKey s.key).isNone then 1 else 0) = 1 := by
  unfold processIssue
  cases hm : dGet tmap s.key with
  | some t =>
    simp only [hm, Option.isNone_some, Bool.false_and]
    rw [processMatched_counts]
    simp
  | none =>
    simp only [hm, Option.isNone_none, Bool.true_and]
    unfold processCreate
    cases hc : env.createKey s.key with
    | none => simp [hc]
    | some k => simp [hc]

/-- C7 counterexample: a single unmatched source issue whose create call
fails is tallied nowhere, so the three counters sum to `0`, not to the
number of processed issues. -/
theorem C7_counterexample :
    ¬ ((runSyncLoop [] envNoRemote "TGT" [] [sIssueA]).2.created +
        (runSyncLoop [] envNoRemote "TGT" [] [sIssueA]).2.updated +
        (runSyncLoop [] envNoRemote "TGT" [] [sIssueA]).2.skipped =
      ([sIssueA] : List Issue).length) := by
  intro h
  exact absurd (h.symm.trans rfl) (by decide)

/-- C7 amended: every processed source issue contributes to exactly one of
the three counters EXCEPT an unmatched issue whose create call fails, which
contributes to none; hence created + updated + skipped plus the number of
failed creates equals the number of processed source issues. -/
theorem C7_counters_amended (mapping : List ConfigItem) (env : SyncEnv)
    (tpk : String) (tmap : List (String × Issue)) (issues : List Issue) :
    (runSyncLoop mapping env tpk tmap issues).2.created +
      (runSyncLoop mapping env tpk tmap issues).2.updated +
      (runSyncLoop mapping env tpk tmap issues).2.skipped +
      countFailedCreates env tmap issues = issues.length := by
  induction issues with
  | nil => rfl
  | cons s rest ih =>
    have h := processIssue_counts mapping env tpk tmap s
    simp only [runSyncLoop, countFailedCreates, addCounts, List.length_cons]
    omega

/-! ## C9: the attachment merge only ever adds -/

theorem uploadPhase_live_mono (ok : String → Bool) (pk : String)
    (dir origCleans : List String) :
    ∀ (atts live : List String) (a : String), a ∈ live →
      a ∈ (uploadPhase ok pk dir origCleans atts live).1 := by
  intro atts
  induction atts with
  | nil =>
    intro live a h
    exact h
  | cons fn rest ih =>
    intro live a h
    simp only [uploadPhase]
    by_cases h1 : remove_prefix_from_filename fn ∈ origCleans
    · rw [if_pos h1]
      exact ih live a h
    · rw [if_neg h1]
      by_cases h2 : remove_prefix_from_filename fn ∈ cleanNames live
      · rw [if_pos h2]
        exact ih live a h
      · rw [if_neg h2]
        by_cases h3 : filenameWithKey fn pk ∈ dir
        · rw [if_pos h3]
          cases hok : ok (filenameWithKey fn pk) with
          | true =>
            simp only [hok, if_true]
            exact ih _ a (List.mem_cons_of_mem _ h)
          | false =>
            simp only [hok, Bool.false_eq_true, if_false]
            exact ih _ a h
        · rw [if_neg h3]
          exact ih live a h

/-- C9: `sync_attachments` never deletes an attachment on either side: for
every environment (including failing transfers) the attachment set of each
side after the merge contains everything present before it. -/
theorem C9_merge_never_deletes (env : AttEnv) (sk tk : String) (st : AttState)
    (a : String) :
    (a ∈ st.srcAtts → a ∈ (sync_attachments env sk tk st).1.srcAtts) ∧
    (a ∈ st.tgtAtts → a ∈ (sync_attachments env sk tk st).1.tgtAtts) := by
  constructor
  · intro h
    exact uploadPhase_live_mono _ _ _ _ st.tgtAtts st.srcAtts a h
  · intro h
    exact uploadPhase_live_mono _ _ _ _ st.srcAtts st.tgtAtts a h

/-- C9 witness: a concrete source attachment survives the merge. -/
theorem C9_merge_never_deletes_witness :
    "a.txt" ∈ (sync_attachments allOk "SRC" "TGT" ⟨["a.txt"], [], []⟩).1.srcAtts :=
  (C9_merge_never_deletes allOk "SRC" "TGT" ⟨["a.txt"], [], []⟩ "a.txt").1
    (List.mem_singleton_self _)

/-! ## The prefix-stripping core lemma (used by C10 and C8) -/

theorem not_mem_of_contains_false {a : Char} {l : List Char}
    (h : l.contains a = false) : a ∉ l := by
  intro hm
  have h2 := List.elem_iff.mpr hm
  unfold List.contains at h
  rw [h2] at h
  cases h

theorem data_ne_nil_of_ne_empty {s : String} (h : ¬ s = "") : s.data ≠ [] := by
  cases s with
  | mk d =>
    intro hd
    apply h
    simp only at hd
    rw [hd]

theorem goodKey_unpack {k : String} (hk : goodKey k = true) :
    k.data ≠ [] ∧ ']' ∉ k.data := by
  unfold goodKey at hk
  rw [Bool.and_eq_true] at hk
  obtain ⟨h1, h2⟩ := hk
  rw [Bool.not_eq_true'] at h1 h2
  exact ⟨data_ne_nil_of_ne_empty (of_decide_eq_false h1),
    not_mem_of_contains_false h2⟩

theorem takeWhile_all {p : Char → Bool} :
    ∀ {l : List Char}, (∀ x ∈ l, p x = true) → l.takeWhile p = l
  | [], _ => rfl
  | a :: l, h => by
    rw [List.takeWhile_cons, if_pos (h a (List.mem_cons_self _ _)),
      takeWhile_all (fun x hx => h x (List.mem_cons_of_mem _ hx))]

theorem takeWhile_append_eq (p : Char → Bool) {xs : List Char}
    (hx : ∀ x ∈ xs, p x = true) {y : Char} (hy : p y = false) (ys : List Char) :
    (xs ++ y :: ys).takeWhile p = xs := by
  induction xs with
  | nil => simp [List.takeWhile_cons, hy]
  | cons a as ih =>
    rw [List.cons_append, List.takeWhile_cons,
      if_pos (hx a (List.mem_cons_self _ _)),
      ih (fun x hxm => hx x (List.mem_cons_of_mem _ hxm))]

theorem dotPlusDollar_of_no_newline {r : List Char} (hne : r ≠ [])
    (hn : '\n' ∉ r) : dotPlusDollar r = some r := by
  cases r with
  | nil => cases hne rfl
  | cons c cs =>
    have hc : ¬ c = '\n' := fun h => hn (h ▸ List.mem_cons_self _ _)
    have htw : (c :: cs).takeWhile (fun ch => ch ≠ '\n') = c :: cs :=
      takeWhile_all (fun x hx => decide_eq_true (fun he => hn (he ▸ hx)))
    simp only [dotPlusDollar, if_neg hc, htw, List.drop_length]
    simp

theorem wsThenRest_space {c : List Char} (hne : c ≠ [])
    (hw : ∀ hd t, c = hd :: t → isWs hd = false) (hn : '\n' ∉ c) :
    wsThenRest (' ' :: c) = some c := by
  cases c with
  | nil => cases hne rfl
  | cons h t =>
    have hwh : isWs h = false := hw h t rfl
    have h1 : (' ' :: h :: t).takeWhile isWs = [' '] := by
      rw [List.takeWhile_cons, if_pos (by decide : isWs ' ' = true),
        List.takeWhile_cons, hwh]
      simp
    have hd : dotPlusDollar ((' ' :: h :: t).drop 1) = some (h :: t) := by
      rw [show (' ' :: h :: t).drop 1 = h :: t from rfl]
      exact dotPlusDollar_of_no_newline (List.cons_ne_nil _ _) hn
    unfold wsThenRest
    rw [h1]
    show wsSplitFrom (' ' :: h :: t) 1 = some (h :: t)
    rw [show wsSplitFrom (' ' :: h :: t) 1 =
        (match dotPlusDollar ((' ' :: h :: t).drop 1) with
         | some g => some g
         | none => wsSplitFrom (' ' :: h :: t) 0) from rfl]
    rw [hd]

/-- Stripping a freshly attached `[key] ` marker from a well-behaved clean
name gives the clean name back. -/
theorem remove_of_prefixed {k c : String} (hk : goodKey k = true)
    (hne : c.data ≠ []) (hw : ∀ hd t, c.data = hd :: t → isWs hd = false)
    (hn : '\n' ∉ c.data) :
    remove_prefix_from_filename ("[" ++ k ++ "] " ++ c) = c := by
  obtain ⟨hknil, hkmem⟩ := goodKey_unpack hk
  have hdata : ("[" ++ k ++ "] " ++ c).data =
      '[' :: (k.data ++ (']' :: ' ' :: c.data)) := by
    simp [String.data_append]
  have htw : (k.data ++ (']' :: ' ' :: c.data)).takeWhile
      (fun ch => ch ≠ ']') = k.data :=
    takeWhile_append_eq _
      (fun x hx => decide_eq_true (show x ≠ ']' from fun he => hkmem (he ▸ hx)))
      (by decide) _
  have hws : wsThenRest (' ' :: c.data) = some c.data :=
    wsThenRest_space hne hw hn
  unfold remove_prefix_from_filename
  rw [hdata]
  simp only [removePrefixL, if_pos rfl]
  rw [htw, if_neg hknil, List.drop_left]
  show (if (']' : Char) = ']' then
      (match wsThenRest (' ' :: c.data) with
       | some g => String.mk g
       | none => "[" ++ k ++ "] " ++ c)
    else "[" ++ k ++ "] " ++ c) = c
  rw [if_pos rfl, hws]

theorem goodName_unpack {fn : String} (h : goodName fn = true) :
    (remove_prefix_from_filename fn).data ≠ [] ∧
    (∀ hd t, (remove_prefix_from_filename fn).data = hd :: t → isWs hd = false) ∧
    '\n' ∉ (remove_prefix_from_filename fn).data := by
  cases hd : (remove_prefix_from_filename fn).data with
  | nil =>
    have h' : goodName fn = false := by
      unfold goodName
      rw [hd]
    rw [h'] at h
    cases h
  | cons h0 t0 =>
    have h' : goodName fn = (!isWs h0 && !((h0 :: t0).contains '\n')) := by
      unfold goodName
      rw [hd]
    rw [h'] at h
    rw [Bool.and_eq_true] at h
    obtain ⟨h1, h2⟩ := h
    rw [Bool.not_eq_true'] at h1 h2
    refine ⟨by simp, ?_, ?_⟩
    · intro hd' t' he
      cases he
      exact h1
    · exact not_mem_of_contains_false h2

/-- Stripping the marker of a freshly prefixed well-behaved filename gives
its clean name back (the composition law C8 also relies on). -/
theorem remove_filenameWithKey {fn k : String} (hk : goodKey k = true)
    (hfn : goodName fn = true) :
    remove_prefix_from_filename (filenameWithKey fn k) =
      remove_prefix_from_filename fn := by
  obtain ⟨hne, hw, hn⟩ := goodName_unpack hfn
  unfold filenameWithKey
  exact remove_of_prefixed hk hne hw hn

/-! ## C10: stability of the filename prefix convention -/

/-- C10 counterexample: `k = "K"` is non-empty without `]` and
`f = " x"` has the non-empty stripped form `" x"`, yet re-stripping after
prefixing gives `"x"` (the regex' greedy `\s+` swallows the leading space),
refuting the claim as stated. -/
theorem C10_counterexample :
    ("K" : String) ≠ "" ∧ ']' ∉ ("K" : String).data ∧
    remove_prefix_from_filename " x" ≠ "" ∧
    remove_prefix_from_filename (filenameWithKey " x" "K") ≠
      remove_prefix_from_filename " x" := by decide

/-- C10 amended: for a project key that is non-empty and without `]`, and a
filename whose prefix-stripped form is non-empty, does not start with
whitespace and contains no newline, stripping after prefixing equals plain
stripping, and prefixing is idempotent. -/
theorem C10_prefix_stability (k f : String) (hk : goodKey k = true)
    (hf : goodName f = true) :
    remove_prefix_from_filename (filenameWithKey f k) =
      remove_prefix_from_filename f ∧
    filenameWithKey (filenameWithKey f k) k = filenameWithKey f k := by
  have h1 := remove_filenameWithKey hk hf
  refine ⟨h1, ?_⟩
  show "[" ++ k ++ "] " ++ remove_prefix_from_filename (filenameWithKey f k) =
    filenameWithKey f k
  rw [h1]
  rfl

/-- C10 witness: an ordinary filename and key. -/
theorem C10_prefix_stability_witness :
    remove_prefix_from_filename (filenameWithKey "report.txt" "K") =
      remove_prefix_from_filename "report.txt" ∧
    filenameWithKey (filenameWithKey "report.txt" "K") "K" =
      filenameWithKey "report.txt" "K" :=
  C10_prefix_stability "K" "report.txt" (by decide) (by decide)

/-! ## C8: idempotence of the attachment merge -/

theorem mem_cleanNames_of_mem {a : String} {l : List String} (h : a ∈ l) :
    remove_prefix_from_filename a ∈ cleanNames l :=
  List.mem_map_of_mem _ h

theorem cleanNames_mono {l l' : List String} (hsub : ∀ a ∈ l, a ∈ l')
    {x : String} (hx : x ∈ cleanNames l) : x ∈ cleanNames l' := by
  obtain ⟨a, ha, rfl⟩ := List.mem_map.mp hx
  exact List.mem_map_of_mem _ (hsub a ha)

theorem downloadPhase_dir_mono (ok : String → Bool) (key : String) :
    ∀ (atts dir lset : List String) (x : String), x ∈ dir →
      x ∈ (downloadPhase ok key atts (dir, lset)).1 := by
  intro atts
  induction atts with
  | nil =>
    intro dir lset x h
    exact h
  | cons fn rest ih =>
    intro dir lset x h
    simp only [downloadPhase]
    by_cases h1 : remove_prefix_from_filename fn ∈ lset
    · rw [if_pos h1]
      exact ih dir lset x h
    · rw [if_neg h1]
      by_cases h2 : filenameWithKey fn key ∈ dir
      · rw [if_pos h2]
        exact ih _ _ x h
      · rw [if_neg h2]
        cases hok : ok (filenameWithKey fn key) with
        | true =>
          simp only [hok, if_true]
          exact ih _ _ x (List.mem_cons_of_mem _ h)
        | false =>
          simp only [hok, Bool.false_eq_true, if_false]
          exact ih _ _ x h

theorem downloadPhase_noop (ok : String → Bool) (key : String) :
    ∀ (atts dir lset : List String),
      (∀ fn ∈ atts, remove_prefix_from_filename fn ∈ lset) →
      downloadPhase ok key atts (dir, lset) = (dir, lset) := by
  intro atts
  induction atts with
  | nil =>
    intro dir lset _
    rfl
  | cons fn rest ih =>
    intro dir lset h
    simp only [downloadPhase]
    rw [if_pos (h fn (List.mem_cons_self _ _))]
    exact ih dir lset (fun g hg => h g (List.mem_cons_of_mem _ hg))

theorem downloadPhase_complete (ok : String → Bool) (hok : ∀ x, ok x = true)
    (key : String) (hkey : goodKey key = true) :
    ∀ (atts dir lset : List String),
      (∀ fn ∈ atts, goodName fn = true) →
      (∀ x ∈ lset, x ∈ cleanNames dir) →
      (∀ x ∈ (downloadPhase ok key atts (dir, lset)).2,
          x ∈ cleanNames (downloadPhase ok key atts (dir, lset)).1) ∧
      (∀ fn ∈ atts, remove_prefix_from_filename fn ∈
          cleanNames (downloadPhase ok key atts (dir, lset)).1) := by
  intro atts
  induction atts with
  | nil =>
    intro dir lset _ hsub
    exact ⟨hsub, fun fn h => absurd h (List.not_mem_nil _)⟩
  | cons fn rest ih =>
    intro dir lset hgood hsub
    have hgfn : goodName fn = true := hgood fn (List.mem_cons_self _ _)
    have hgrest : ∀ g ∈ rest, goodName g = true :=
      fun g hg => hgood g (List.mem_cons_of_mem _ hg)
    have hrfk : remove_prefix_from_filename (filenameWithKey fn key) =
        remove_prefix_from_filename fn := remove_filenameWithKey hkey hgfn
    simp only [downloadPhase]
    by_cases h1 : remove_prefix_from_filename fn ∈ lset
    · rw [if_pos h1]
      obtain ⟨ha, hb⟩ := ih dir lset hgrest hsub
      refine ⟨ha, ?_⟩
      intro g hg
      rcases List.mem_cons.mp hg with rfl | hg2
      · exact cleanNames_mono
          (fun a hA => downloadPhase_dir_mono ok key rest dir lset a hA)
          (hsub _ h1)
      · exact hb g hg2
    · rw [if_neg h1]
      by_cases h2 : filenameWithKey fn key ∈ dir
      · rw [if_pos h2]
        have hsub' : ∀ x ∈ (remove_prefix_from_filename fn :: lset),
            x ∈ cleanNames dir := by
          intro x hx
          rcases List.mem_cons.mp hx with rfl | hx2
          · rw [← hrfk]
            exact mem_cleanNames_of_mem h2
          · exact hsub x hx2
        obtain ⟨ha, hb⟩ := ih dir _ hgrest hsub'
        refine ⟨ha, ?_⟩
        intro g hg
        rcases List.mem_cons.mp hg with rfl | hg2
        · exact cleanNames_mono
            (fun a hA => downloadPhase_dir_mono ok key rest _ _ a hA)
            (hsub' _ (List.mem_cons_self _ _))
        · exact hb g hg2
      · rw [if_neg h2, hok (filenameWithKey fn key)]
        simp only [if_true]
        have hsub' : ∀ x ∈ (remove_prefix_from_filename fn :: lset),
            x ∈ cleanNames (filenameWithKey fn key :: dir) := by
          intro x hx
          rcases List.mem_cons.mp hx with rfl | hx2
          · rw [← hrfk]
            exact mem_cleanNames_of_mem (List.mem_cons_self _ _)
          · exact cleanNames_mono (fun a hA => List.mem_cons_of_mem _ hA) (hsub x hx2)
        obtain ⟨ha, hb⟩ := ih _ _ hgrest hsub'
        refine ⟨ha, ?_⟩
        intro g hg
        rcases List.mem_cons.mp hg with rfl | hg2
        · exact cleanNames_mono
            (fun a hA => downloadPhase_dir_mono ok key rest _ _ a hA)
            (hsub' _ (List.mem_cons_self _ _))
        · exact hb g hg2

theorem uploadPhase_noop (ok : String → Bool) (pk : String)
    (dir origCleans : List String) :
    ∀ (atts live : List String),
      (∀ fn ∈ atts, remove_prefix_from_filename fn ∈ origCleans ∨
        filenameWithKey fn pk ∉ dir) →
      uploadPhase ok pk dir origCleans atts live = (live, []) := by
  intro atts
  induction atts with
  | nil =>
    intro live _
    rfl
  | cons fn rest ih =>
    intro live h
    have hrest : ∀ g ∈ rest, remove_prefix_from_filename g ∈ origCleans ∨
        filenameWithKey g pk ∉ dir :=
      fun g hg => h g (List.mem_cons_of_mem _ hg)
    simp only [uploadPhase]
    by_cases hc1 : remove_prefix_from_filename fn ∈ origCleans
    · rw [if_pos hc1]
      exact ih live hrest
    · rw [if_neg hc1]
      by_cases hc2 : remove_prefix_from_filename fn ∈ cleanNames live
      · rw [if_pos hc2]
        exact ih live hrest
      · rw [if_neg hc2]
        rcases h fn (List.mem_cons_self _ _) with h1 | h1
        · exact absurd h1 hc1
        · rw [if_neg h1]
          exact ih live hrest

theorem uploadPhase_covers (ok : String → Bool) (hok : ∀ x, ok x = true)
    (pk : String) (hpk : goodKey pk = true) (dir origCleans : List String) :
    ∀ (atts live : List String),
      (∀ fn ∈ atts, goodName fn = true) →
      (∀ x ∈ origCleans, x ∈ cleanNames live) →
      ∀ fn ∈ atts,
        remove_prefix_from_filename fn ∈
          cleanNames (uploadPhase ok pk dir origCleans atts live).1 ∨
        filenameWithKey fn pk ∉ dir := by
  intro atts
  induction atts with
  | nil =>
    intro live _ _ fn h
    cases h
  | cons fn0 rest ih =>
    intro live hgood hsub fn hfn
    have hgrest : ∀ g ∈ rest, goodName g = true :=
      fun g hg => hgood g (List.mem_cons_of_mem _ hg)
    simp only [uploadPhase]
    by_cases hc1 : remove_prefix_from_filename fn0 ∈ origCleans
    · rw [if_pos hc1]
      rcases List.mem_cons.mp hfn with rfl | hfn2
      · exact Or.inl (cleanNames_mono
          (fun a hA => uploadPhase_live_mono ok pk dir origCleans rest live a hA)
          (hsub _ hc1))
      · exact ih live hgrest hsub fn hfn2
    · rw [if_neg hc1]
      by_cases hc2 : remove_prefix_from_filename fn0 ∈ cleanNames live
      · rw [if_pos hc2]
        rcases List.mem_cons.mp hfn with rfl | hfn2
        · exact Or.inl (cleanNames_mono
            (fun a hA => uploadPhase_live_mono ok pk dir origCleans rest live a hA)
            hc2)
        · exact ih live hgrest hsub fn hfn2
      · rw [if_neg hc2]
        by_cases hc3 : filenameWithKey fn0 pk ∈ dir
        · rw [if_pos hc3, hok (filenameWithKey fn0 pk)]
          have hsub' : ∀ x ∈ origCleans,
              x ∈ cleanNames (filenameWithKey fn0 pk :: live) :=
            fun x hx =>
              cleanNames_mono (fun a hA => List.mem_cons_of_mem _ hA) (hsub x hx)
          rcases List.mem_cons.mp hfn with rfl | hfn2
          · refine Or.inl ?_
            have hmem : remove_prefix_from_filename fn ∈
                cleanNames (filenameWithKey fn pk :: live) := by
              rw [← remove_filenameWithKey hpk (hgood fn (List.mem_cons_self _ _))]
              exact mem_cleanNames_of_mem (List.mem_cons_self _ _)
            exact cleanNames_mono
              (fun a hA => uploadPhase_live_mono ok pk dir origCleans rest _ a hA)
              hmem
          · exact ih _ hgrest hsub' fn hfn2
        · rw [if_neg hc3]
          rcases List.mem_cons.mp hfn with rfl | hfn2
          · exact Or.inr hc3
          · exact ih live hgrest hsub fn hfn2

theorem uploadPhase_shape (ok : String → Bool) (pk : String)
    (dir origCleans : List String) :
    ∀ (atts live : List String) (x : String),
      x ∈ (uploadPhase ok pk dir origCleans atts live).1 →
      x ∈ live ∨ ∃ fn, fn ∈ atts ∧ x = filenameWithKey fn pk ∧ x ∈ dir := by
  intro atts
  induction atts with
  | nil =>
    intro live x h
    exact Or.inl h
  | cons fn0 rest ih =>
    intro live x h
    simp only [uploadPhase] at h
    by_cases hc1 : remove_prefix_from_filename fn0 ∈ origCleans
    · rw [if_pos hc1] at h
      rcases ih live x h with h2 | ⟨fn, hfn, he, hd⟩
      · exact Or.inl h2
      · exact Or.inr ⟨fn, List.mem_cons_of_mem _ hfn, he, hd⟩
    · rw [if_neg hc1] at h
      by_cases hc2 : remove_prefix_from_filename fn0 ∈ cleanNames live
      · rw [if_pos hc2] at h
        rcases ih live x h with h2 | ⟨fn, hfn, he, hd⟩
        · exact Or.inl h2
        · exact Or.inr ⟨fn, List.mem_cons_of_mem _ hfn, he, hd⟩
      · rw [if_neg hc2] at h
        by_cases hc3 : filenameWithKey fn0 pk ∈ dir
        · rw [if_pos hc3] at h
          rcases ih _ x h with h2 | ⟨fn, hfn, he, hd⟩
          · by_cases hok' : ok (filenameWithKey fn0 pk) = true
            · rw [hok'] at h2
              rcases List.mem_cons.mp (by simpa using h2) with rfl | h3
              · exact Or.inr ⟨fn0, List.mem_cons_self _ _, rfl, hc3⟩
              · exact Or.inl h3
            · rw [Bool.not_eq_true] at hok'
              rw [hok'] at h2
              exact Or.inl (by simpa using h2)
          · exact Or.inr ⟨fn, List.mem_cons_of_mem _ hfn, he, hd⟩
        · rw [if_neg hc3] at h
          rcases ih live x h with h2 | ⟨fn, hfn, he, hd⟩
          · exact Or.inl h2
          · exact Or.inr ⟨fn, List.mem_cons_of_mem _ hfn, he, hd⟩

/-- When every attachment already has its staged copy tracked and its
counterpart present (or no staged file), one more merge run changes nothing
and attempts no upload. -/
theorem sync_attachments_noop (env : AttEnv) (sk tk : String) (st : AttState)
    (O1 : ∀ fn ∈ st.srcAtts,
      remove_prefix_from_filename fn ∈ cleanNames st.localDir)
    (O2 : ∀ fn ∈ st.tgtAtts,
      remove_prefix_from_filename fn ∈ cleanNames st.localDir)
    (O3 : ∀ fn ∈ st.srcAtts,
      remove_prefix_from_filename fn ∈ cleanNames st.tgtAtts ∨
        filenameWithKey fn sk ∉ st.localDir)
    (O4 : ∀ fn ∈ st.tgtAtts,
      remove_prefix_from_filename fn ∈ cleanNames st.srcAtts ∨
        filenameWithKey fn tk ∉ st.localDir) :
    sync_attachments env sk tk st = (st, []) := by
  simp only [sync_attachments]
  rw [downloadPhase_noop env.dlSrcOk sk st.srcAtts st.localDir
    (cleanNames st.localDir) O1]
  rw [downloadPhase_noop env.dlTgtOk tk st.tgtAtts st.localDir
    (cleanNames st.localDir) O2]
  rw [uploadPhase_noop env.upTgtOk sk st.localDir (cleanNames st.tgtAtts)
    st.srcAtts st.tgtAtts O3]
  rw [uploadPhase_noop env.upSrcOk tk st.localDir (cleanNames st.srcAtts)
    st.tgtAtts st.srcAtts O4]
  rfl

/-- C8 counterexample: for the source attachment `"a\nb"` (whose stripped
form contains a newline, so the uploaded `[SRC] a\nb` never strips back)
the second run of the merge — immediately after a fully successful first
run, with no remote changes in between — attempts an upload again. -/
theorem C8_counterexample :
    (sync_attachments allOk "SRC" "TGT"
      (sync_attachments allOk "SRC" "TGT" ⟨["a\nb"], [], []⟩).1).2 ≠ [] := by
  decide

/-- C8 amended: provided both project keys are non-empty and contain no
`]`, and every attachment filename on either side strips to a non-empty
newline-free name not starting with whitespace, running `sync_attachments`
a second time immediately after a fully successful run (and no remote
changes in between) leaves the attachment sets and the staging directory
unchanged and attempts no upload. -/
theorem C8_idempotent_amended (sk tk : String) (st : AttState)
    (hsk : goodKey sk = true) (htk : goodKey tk = true)
    (hsrc : ∀ fn ∈ st.srcAtts, goodName fn = true)
    (htgt : ∀ fn ∈ st.tgtAtts, goodName fn = true) :
    sync_attachments allOk sk tk (sync_attachments allOk sk tk st).1 =
      ((sync_attachments allOk sk tk st).1, []) := by
  obtain ⟨a1, b1⟩ := downloadPhase_complete allOk.dlSrcOk (fun _ => rfl) sk hsk
    st.srcAtts st.localDir (cleanNames st.localDir) hsrc (fun x hx => hx)
  obtain ⟨a2, b2⟩ := downloadPhase_complete allOk.dlTgtOk (fun _ => rfl) tk htk
    st.tgtAtts
    (downloadPhase allOk.dlSrcOk sk st.srcAtts (st.localDir, cleanNames st.localDir)).1
    (downloadPhase allOk.dlSrcOk sk st.srcAtts (st.localDir, cleanNames st.localDir)).2
    htgt a1
  have hd12 : ∀ x ∈ (downloadPhase allOk.dlSrcOk sk st.srcAtts
        (st.localDir, cleanNames st.localDir)).1,
      x ∈ (downloadPhase allOk.dlTgtOk tk st.tgtAtts
        ((downloadPhase allOk.dlSrcOk sk st.srcAtts
          (st.localDir, cleanNames st.localDir)).1,
         (downloadPhase allOk.dlSrcOk sk st.srcAtts
          (st.localDir, cleanNames st.localDir)).2)).1 :=
    fun x hx => downloadPhase_dir_mono allOk.dlTgtOk tk st.tgtAtts _ _ x hx
  -- the staging directory after both download phases
  have b1' : ∀ fn ∈ st.srcAtts, remove_prefix_from_filename fn ∈
      cleanNames (sync_attachments allOk sk tk st).1.localDir :=
    fun fn hfn => cleanNames_mono hd12 (b1 fn hfn)
  have b2' : ∀ fn ∈ st.tgtAtts, remove_prefix_from_filename fn ∈
      cleanNames (sync_attachments allOk sk tk st).1.localDir :=
    fun fn hfn => b2 fn hfn
  -- the live lists after the two upload phases
  have hsrc_sub : ∀ a ∈ st.srcAtts, a ∈ (sync_attachments allOk sk tk st).1.srcAtts :=
    fun a ha => uploadPhase_live_mono allOk.upSrcOk tk _ _ st.tgtAtts st.srcAtts a ha
  have htgt_sub : ∀ a ∈ st.tgtAtts, a ∈ (sync_attachments allOk sk tk st).1.tgtAtts :=
    fun a ha => uploadPhase_live_mono allOk.upTgtOk sk _ _ st.srcAtts st.tgtAtts a ha
  have pc : ∀ fn ∈ st.srcAtts, remove_prefix_from_filename fn ∈
      cleanNames (sync_attachments allOk sk tk st).1.tgtAtts ∨
      filenameWithKey fn sk ∉ (sync_attachments allOk sk tk st).1.localDir :=
    fun fn hfn => uploadPhase_covers allOk.upTgtOk (fun _ => rfl) sk hsk _
      (cleanNames st.tgtAtts) st.srcAtts st.tgtAtts hsrc (fun x hx => hx) fn hfn
  have pd : ∀ fn ∈ st.tgtAtts, remove_prefix_from_filename fn ∈
      cleanNames (sync_attachments allOk sk tk st).1.srcAtts ∨
      filenameWithKey fn tk ∉ (sync_attachments allOk sk tk st).1.localDir :=
    fun fn hfn => uploadPhase_covers allOk.upSrcOk (fun _ => rfl) tk htk _
      (cleanNames st.srcAtts) st.tgtAtts st.srcAtts htgt (fun x hx => hx) fn hfn
  have shapeSrc : ∀ x ∈ (sync_attachments allOk sk tk st).1.srcAtts,
      x ∈ st.srcAtts ∨ ∃ fn, fn ∈ st.tgtAtts ∧ x = filenameWithKey fn tk ∧
        x ∈ (sync_attachments allOk sk tk st).1.localDir :=
    fun x hx => uploadPhase_shape allOk.upSrcOk tk _ (cleanNames st.srcAtts)
      st.tgtAtts st.srcAtts x hx
  have shapeTgt : ∀ x ∈ (sync_attachments allOk sk tk st).1.tgtAtts,
      x ∈ st.tgtAtts ∨ ∃ fn, fn ∈ st.srcAtts ∧ x = filenameWithKey fn sk ∧
        x ∈ (sync_attachments allOk sk tk st).1.localDir :=
    fun x hx => uploadPhase_shape allOk.upTgtOk sk _ (cleanNames st.tgtAtts)
      st.srcAtts st.tgtAtts x hx
  apply sync_attachments_noop
  · -- O1: every filename on the source side strips into the staging names
    intro fn hfn
    rcases shapeSrc fn hfn with h1 | ⟨g, hg, he, hdir⟩
    · exact b1' fn h1
    · exact mem_cleanNames_of_mem hdir
  · -- O2
    intro fn hfn
    rcases shapeTgt fn hfn with h1 | ⟨g, hg, he, hdir⟩
    · exact b2' fn h1
    · exact mem_cleanNames_of_mem hdir
  · -- O3
    intro fn hfn
    rcases shapeSrc fn hfn with h1 | ⟨g, hg, he, hdir⟩
    · exact pc fn h1
    · refine Or.inl ?_
      rw [he, remove_filenameWithKey htk (htgt g hg)]
      exact cleanNames_mono htgt_sub (mem_cleanNames_of_mem hg)
  · -- O4
    intro fn hfn
    rcases shapeTgt fn hfn with h1 | ⟨g, hg, he, hdir⟩
    · exact pd fn h1
    · refine Or.inl ?_
      rw [he, remove_filenameWithKey hsk (hsrc g hg)]
      exact cleanNames_mono hsrc_sub (mem_cleanNames_of_mem hg)

/-- C8 witness: ordinary filenames, a full cross-merge, then a no-op second
run. -/
theorem C8_idempotent_amended_witness :
    sync_attachments allOk "SRC" "TGT"
      (sync_attachments allOk "SRC" "TGT" ⟨["a.txt"], ["b.txt"], []⟩).1 =
    ((sync_attachments allOk "SRC" "TGT" ⟨["a.txt"], ["b.txt"], []⟩).1, []) :=
  C8_idempotent_amended "SRC" "TGT" ⟨["a.txt"], ["b.txt"], []⟩
    (by decide) (by decide) (by decide) (by decide)

end JiraSyncVerif
